import Mathlib

/-
Verification of the log frame decoder / resynchronization engine of
ground/gcs/src/plugins/kmlexport/kmlexport.cpp (KmlExport::preparseLogFile,
the Index Builder, and KmlExport::parseLogFile, the Frame Streamer).

The log file is modelled as a list of bytes (`List Nat`, each entry < 256).
`QFile` reads into fixed C buffers are modelled by `readBuf`: a short read
near end-of-file overwrites only the available bytes and leaves the rest of
the buffer with its previous contents.  The uninitialized 8-byte `dataSize`
(resp. `packetSize`) stack variable is modelled by an explicit `stale8`
parameter holding its prior contents; theorems about inputs on which the
code never performs a short read do not depend on it.  Loops are written
with an explicit fuel argument (the position strictly increases every
iteration, so `input.length + 1` units of fuel are always sufficient), which
keeps every definition kernel-evaluable.
-/

namespace KmlLog

/-- Little-endian value of a list of bytes (least significant byte first). -/
def leVal : List Nat → Nat
  | [] => 0
  | b :: bs => b + 256 * leVal bs

/-- Read from byte position `p` of `input` into a fixed-size buffer whose
previous contents are `old`: up to `old.length` bytes are taken from the
file; if fewer are available the tail of the buffer keeps its stale
contents.  This is `QIODevice::read(char *, maxSize)` into a C variable. -/
def readBuf (input : List Nat) (p : Nat) (old : List Nat) : List Nat :=
  (input.drop p).take (min old.length (input.length - p)) ++
    old.drop (min old.length (input.length - p))

/-- The raw 8-byte size field read at position `p1`, as an unsigned value;
`stale8` is the prior contents of the 8-byte `dataSize` stack variable. -/
def rawSizeAt (input stale8 : List Nat) (p1 : Nat) : Nat :=
  leVal (readBuf input p1 stale8)

/-- Two's-complement (qint64) reading of an unsigned 64-bit value. -/
def toSigned64 (u : Nat) : Int :=
  if u < 2 ^ 63 then (u : Int) else (u : Int) - 2 ^ 64

/-- The size field at `p1` as the signed `qint64` the streamer compares. -/
def sizeFieldAt (input stale8 : List Nat) (p1 : Nat) : Int :=
  toSigned64 (rawSizeAt input stale8 p1)

/-- File position after reading the 8-byte size field at `p1` (a short read
advances only by the bytes actually available). -/
def afterSize (input stale8 : List Nat) (p1 : Nat) : Nat :=
  p1 + min stale8.length (input.length - p1)

/-- `regressB prev t` is the out-of-order test against the previously
indexed timestamp (`false` when nothing has been indexed yet). -/
def regressB : Option Nat → Nat → Bool
  | some q, t => decide (t < q)
  | none, _ => false

/-- The source condition
`!timestampBuffer.isEmpty() && lastTimeStamp < timestampBuffer.last()`. -/
def tsRegress (idx : List (Nat × Nat)) (ts : Nat) : Bool :=
  regressB (idx.getLast?.map Prod.snd) ts

/-- Result of the index pass: the frame index (offset, timestamp) pairs in
append order, the offsets at which a one-byte resync happened, the offsets
at which an out-of-order-timestamp advisory fired, and the final cursor
position. -/
structure PreResult where
  index : List (Nat × Nat)
  resyncs : List Nat
  ooo : List Nat
  finalPos : Nat
deriving DecidableEq

/-- The main loop of `KmlExport::preparseLogFile`.  At each candidate
offset `pos` (while not at end) it reads the 4-byte timestamp into the
persistent `lastTimeStamp` buffer `tsB` and the 8-byte size field into the
uninitialized `dataSize` buffer (stale contents `stale8`).  A size field
with any of its high 48 bits set is a sync mismatch: the candidate is
discarded and the cursor moves to `pos + 1`.  Otherwise an out-of-order
timestamp (relative to the last indexed one) fires an advisory, the entry
is appended, and the cursor seeks past the declared frame. -/
def preparseLoop (input stale8 : List Nat) :
    Nat → List Nat → List (Nat × Nat) → List Nat → List Nat → Nat → PreResult
  | 0, _, idx, rs, ooo, pos => ⟨idx, rs, ooo, pos⟩
  | fuel + 1, tsB, idx, rs, ooo, pos =>
    if pos < input.length then
      if 2 ^ 16 ≤ rawSizeAt input stale8 (pos + min tsB.length (input.length - pos)) then
        preparseLoop input stale8 fuel (readBuf input pos tsB) idx (rs ++ [pos]) ooo (pos + 1)
      else
        preparseLoop input stale8 fuel (readBuf input pos tsB)
          (idx ++ [(pos, leVal (readBuf input pos tsB))]) rs
          (if tsRegress idx (leVal (readBuf input pos tsB)) then ooo ++ [pos] else ooo)
          (pos + 12 + rawSizeAt input stale8 (pos + min tsB.length (input.length - pos)))
    else ⟨idx, rs, ooo, pos⟩

/-- `KmlExport::preparseLogFile`: run the index loop from offset `start`
(= `logFileStartIdx`); fail (`EmptyLog`, `return false`) when no timestamp
was indexed, otherwise seek back to the start offset and succeed. -/
def preparseLogFile (stale8 input : List Nat) (start : Nat) : Option PreResult :=
  if (preparseLoop input stale8 (input.length + 1) [0, 0, 0, 0] [] [] [] start).index = []
  then none
  else some { preparseLoop input stale8 (input.length + 1) [0, 0, 0, 0] [] [] [] start with
              finalPos := start }

inductive StreamStatus where
  | completed
  | stoppedOnCorruption
deriving DecidableEq

/-- Result of the streaming pass: the frames whose payload bytes were
forwarded to the sink (timestamp and payload, in file order), the terminal
status, and the number of iterations that performed the header read. -/
structure StreamResult where
  frames : List (Nat × List Nat)
  status : StreamStatus
  headerReads : Nat
deriving DecidableEq

/-- The main loop of `KmlExport::parseLogFile`.  While not at end: stop if
fewer than 4 bytes remain; read the 4-byte timestamp and the 8-byte
`packetSize` (signed); if `packetSize < 1` or `packetSize > 1024*1024`,
stop with `stoppedOnCorruption`; if fewer than `packetSize` bytes remain,
stop normally (truncated tail); otherwise forward the payload bytes to the
sink and continue. -/
def streamLoop (input stale8 : List Nat) :
    Nat → List (Nat × List Nat) → Nat → Nat → StreamResult
  | 0, acc, reads, _ => ⟨acc, StreamStatus.completed, reads⟩
  | fuel + 1, acc, reads, pos =>
    if pos < input.length then
      if input.length - pos < 4 then ⟨acc, StreamStatus.completed, reads⟩
      else if sizeFieldAt input stale8 (pos + 4) < 1 ∨
          1024 * 1024 < sizeFieldAt input stale8 (pos + 4) then
        ⟨acc, StreamStatus.stoppedOnCorruption, reads + 1⟩
      else if ((input.length - afterSize input stale8 (pos + 4) : Nat) : Int) <
          sizeFieldAt input stale8 (pos + 4) then
        ⟨acc, StreamStatus.completed, reads + 1⟩
      else
        streamLoop input stale8 fuel
          (acc ++ [(leVal ((input.drop pos).take 4),
            (input.drop (afterSize input stale8 (pos + 4))).take
              (sizeFieldAt input stale8 (pos + 4)).toNat)])
          (reads + 1)
          (afterSize input stale8 (pos + 4) + (sizeFieldAt input stale8 (pos + 4)).toNat)
    else ⟨acc, StreamStatus.completed, reads⟩

/-- `KmlExport::parseLogFile`, streaming the log from its start. -/
def parseLogFile (stale8 input : List Nat) : StreamResult :=
  streamLoop input stale8 (input.length + 1) [] 0 0

/-- 4-byte little-endian encoding of a timestamp (header layout). -/
def u32le (t : Nat) : List Nat :=
  [t % 256, t / 256 % 256, t / 65536 % 256, t / 16777216 % 256]

/-- 8-byte little-endian encoding of the size field (header layout). -/
def u64le (v : Nat) : List Nat :=
  [v % 256, v / 256 % 256, v / 65536 % 256, v / 16777216 % 256,
   v / 4294967296 % 256, v / 1099511627776 % 256,
   v / 281474976710656 % 256, v / 72057594037927936 % 256]

/-- One encoded frame: 4-byte LE timestamp, 8-byte LE size field whose low
16 bits are the payload length and whose high 48 bits are zero (whenever
`p.length ≤ 0xFFFF`), then the payload bytes. -/
def encFrame (t : Nat) (p : List Nat) : List Nat :=
  u32le t ++ u64le p.length ++ p

/-- A well-formed log: the concatenation of encoded frames. -/
def encFrames : List (Nat × List Nat) → List Nat
  | [] => []
  | f :: fs => encFrame f.1 f.2 ++ encFrames fs

/-- The index entries the builder produces for frames laid out from
offset `a`: each entry's offset is the previous offset plus the 12 header
bytes plus the previous payload length. -/
def frameEntries (a : Nat) : List (Nat × List Nat) → List (Nat × Nat)
  | [] => []
  | f :: fs => (a, f.1) :: frameEntries (a + 12 + f.2.length) fs

/-- Byte offset of the `i`-th frame of a frame list laid out from `a`. -/
def frameOffset (a : Nat) : List (Nat × List Nat) → Nat → Nat
  | _, 0 => a
  | [], _ + 1 => a
  | f :: fs, i + 1 => frameOffset (a + 12 + f.2.length) fs i

/-- Offsets at which the out-of-order-timestamp advisory fires while
indexing frames laid out from `a`, `prev` being the previously indexed
timestamp. -/
def advOffsets (prev : Option Nat) (a : Nat) : List (Nat × List Nat) → List Nat
  | [] => []
  | f :: fs =>
    (if regressB prev f.1 then [a] else []) ++ advOffsets (some f.1) (a + 12 + f.2.length) fs

/-- Decoding one frame per the header layout both passes read: 4-byte LE
timestamp, 8-byte LE size field which must have its high 48 bits zero (the
sync check), then that many payload bytes. -/
def decodeFrame (bs : List Nat) : Option (Nat × List Nat) :=
  if 2 ^ 16 ≤ leVal ((bs.drop 4).take 8) then none
  else some (leVal (bs.take 4), (bs.drop 12).take (leVal ((bs.drop 4).take 8)))

/-- All-zero stale contents for the 8-byte uninitialized buffer, used by
concrete evaluations. -/
def zeros8 : List Nat := [0, 0, 0, 0, 0, 0, 0, 0]

lemma leVal_u32le (t : Nat) : leVal (u32le t) = t % 2 ^ 32 := by
  simp [leVal, u32le]; omega

lemma leVal_u64le (v : Nat) : leVal (u64le v) = v % 2 ^ 64 := by
  simp [leVal, u64le]; omega

lemma u32le_length (t : Nat) : (u32le t).length = 4 := rfl

lemma u64le_length (v : Nat) : (u64le v).length = 8 := rfl

lemma encFrame_length (t : Nat) (p : List Nat) : (encFrame t p).length = 12 + p.length := by
  simp [encFrame, u32le, u64le]; omega

lemma encFrames_nil : encFrames [] = [] := rfl

lemma encFrames_cons (f : Nat × List Nat) (fs : List (Nat × List Nat)) :
    encFrames (f :: fs) = encFrame f.1 f.2 ++ encFrames fs := rfl

lemma encFrames_length_ge (F : List (Nat × List Nat)) (h : F ≠ []) :
    12 ≤ (encFrames F).length := by
  cases F with
  | nil => exact absurd rfl h
  | cons f fs => simp [encFrames_cons, encFrame_length]; omega

/-- A buffer read whose bytes are entirely available reads exactly the
prefix of the remaining input matching the buffer size. -/
lemma readBuf_exact (input old pre rest : List Nat) (q : Nat)
    (hdrop : input.drop q = pre ++ rest) (hlen : pre.length = old.length) :
    readBuf input q old = pre := by
  have hq : (input.drop q).length = input.length - q := List.length_drop q input
  have hle : old.length ≤ input.length - q := by
    rw [← hq, hdrop, List.length_append]; omega
  unfold readBuf
  rw [min_eq_left hle, hdrop, List.take_left' hlen, List.drop_eq_nil_of_le le_rfl,
    List.append_nil]

lemma readBuf_length (input old : List Nat) (q : Nat) :
    (readBuf input q old).length = old.length := by
  unfold readBuf
  have h1 : min old.length (input.length - q) ≤ (input.drop q).length := by
    rw [List.length_drop]; omega
  rw [List.length_append, List.length_take, List.length_drop, List.length_drop]
  omega

lemma drop_encFrame_four (input rest : List Nat) (a t : Nat) (p : List Nat)
    (hdrop : input.drop a = encFrame t p ++ rest) :
    input.drop (a + 4) = u64le p.length ++ (p ++ rest) := by
  rw [← List.drop_drop, hdrop]
  have : encFrame t p ++ rest = u32le t ++ (u64le p.length ++ (p ++ rest)) := by
    simp [encFrame]
  rw [this, List.drop_left' (u32le_length t)]

lemma drop_encFrame_twelve (input rest : List Nat) (a t : Nat) (p : List Nat)
    (hdrop : input.drop a = encFrame t p ++ rest) :
    input.drop (a + 12) = p ++ rest := by
  have h4 := drop_encFrame_four input rest a t p hdrop
  have : a + 12 = a + 4 + 8 := by omega
  rw [this, ← List.drop_drop, h4, List.drop_left' (u64le_length p.length)]

lemma remaining_encFrame (input rest : List Nat) (a t : Nat) (p : List Nat)
    (hdrop : input.drop a = encFrame t p ++ rest) :
    input.length - a = 12 + p.length + rest.length := by
  have := List.length_drop a input
  rw [hdrop] at this
  simp [List.length_append, encFrame_length] at this
  omega

lemma preparseLoop_exit (input stale8 : List Nat) (fuel : Nat) (tsB : List Nat)
    (idx : List (Nat × Nat)) (rs ooo : List Nat) (pos : Nat) (h : input.length ≤ pos) :
    preparseLoop input stale8 fuel tsB idx rs ooo pos = ⟨idx, rs, ooo, pos⟩ := by
  cases fuel <;> simp [preparseLoop, Nat.not_lt.mpr h]

lemma preparseLoop_resync (input stale8 : List Nat) (fuel : Nat) (tsB : List Nat)
    (idx : List (Nat × Nat)) (rs ooo : List Nat) (pos : Nat) (h1 : pos < input.length)
    (hs : 2 ^ 16 ≤ rawSizeAt input stale8 (pos + min tsB.length (input.length - pos))) :
    preparseLoop input stale8 (fuel + 1) tsB idx rs ooo pos =
      preparseLoop input stale8 fuel (readBuf input pos tsB) idx (rs ++ [pos]) ooo (pos + 1) := by
  simp only [preparseLoop]
  rw [if_pos h1, if_pos hs]

lemma preparseLoop_frame (input stale8 : List Nat) (fuel : Nat) (tsB : List Nat)
    (idx : List (Nat × Nat)) (rs ooo : List Nat) (pos : Nat) (h1 : pos < input.length)
    (hs : ¬ 2 ^ 16 ≤ rawSizeAt input stale8 (pos + min tsB.length (input.length - pos))) :
    preparseLoop input stale8 (fuel + 1) tsB idx rs ooo pos =
      preparseLoop input stale8 fuel (readBuf input pos tsB)
        (idx ++ [(pos, leVal (readBuf input pos tsB))]) rs
        (if tsRegress idx (leVal (readBuf input pos tsB)) then ooo ++ [pos] else ooo)
        (pos + 12 + rawSizeAt input stale8 (pos + min tsB.length (input.length - pos))) := by
  simp only [preparseLoop]
  rw [if_pos h1, if_neg hs]

lemma preparseLoop_fuel_succ (input stale8 : List Nat) :
    ∀ (fuel : Nat) (tsB : List Nat) (idx : List (Nat × Nat)) (rs ooo : List Nat) (pos : Nat),
      input.length - pos ≤ fuel →
      preparseLoop input stale8 fuel tsB idx rs ooo pos =
        preparseLoop input stale8 (fuel + 1) tsB idx rs ooo pos := by
  intro fuel
  induction fuel with
  | zero =>
    intro tsB idx rs ooo pos h
    have hp : input.length ≤ pos := by omega
    rw [preparseLoop_exit _ _ _ _ _ _ _ _ hp, preparseLoop_exit _ _ _ _ _ _ _ _ hp]
  | succ f ih =>
    intro tsB idx rs ooo pos h
    by_cases hp : pos < input.length
    · by_cases hs : 2 ^ 16 ≤ rawSizeAt input stale8 (pos + min tsB.length (input.length - pos))
      · rw [preparseLoop_resync _ _ _ _ _ _ _ _ hp hs,
            preparseLoop_resync _ _ _ _ _ _ _ _ hp hs]
        exact ih _ _ _ _ _ (by omega)
      · rw [preparseLoop_frame _ _ _ _ _ _ _ _ hp hs,
            preparseLoop_frame _ _ _ _ _ _ _ _ hp hs]
        exact ih _ _ _ _ _ (by omega)
    · have hp2 : input.length ≤ pos := by omega
      rw [preparseLoop_exit _ _ _ _ _ _ _ _ hp2, preparseLoop_exit _ _ _ _ _ _ _ _ hp2]

lemma preparseLoop_fuel_le (input stale8 : List Nat) (f1 f2 : Nat) (tsB : List Nat)
    (idx : List (Nat × Nat)) (rs ooo : List Nat) (pos : Nat)
    (h1 : input.length - pos ≤ f1) (h12 : f1 ≤ f2) :
    preparseLoop input stale8 f1 tsB idx rs ooo pos =
      preparseLoop input stale8 f2 tsB idx rs ooo pos := by
  induction f2 with
  | zero =>
    have : f1 = 0 := by omega
    rw [this]
  | succ f ih =>
    by_cases hf : f1 = f + 1
    · rw [hf]
    · have hle : f1 ≤ f := by omega
      rw [ih hle, preparseLoop_fuel_succ input stale8 f tsB idx rs ooo pos (by omega)]

lemma readBuf_avail (input old : List Nat) (q : Nat) (h : old.length + q ≤ input.length) :
    readBuf input q old = (input.drop q).take old.length := by
  unfold readBuf
  rw [min_eq_left (by omega), List.drop_eq_nil_of_le le_rfl, List.append_nil]

lemma preparseLoop_tsB_irrel (input stale8 : List Nat) (fuel : Nat) (tsB1 tsB2 : List Nat)
    (idx : List (Nat × Nat)) (rs ooo : List Nat) (pos : Nat)
    (h1 : tsB1.length = 4) (h2 : tsB2.length = 4) (h : pos + 4 ≤ input.length) :
    preparseLoop input stale8 fuel tsB1 idx rs ooo pos =
      preparseLoop input stale8 fuel tsB2 idx rs ooo pos := by
  cases fuel with
  | zero => rfl
  | succ f =>
    have hB : readBuf input pos tsB1 = readBuf input pos tsB2 := by
      rw [readBuf_avail input tsB1 pos (by omega), readBuf_avail input tsB2 pos (by omega),
        h1, h2]
    have hmin : min tsB1.length (input.length - pos) = min tsB2.length (input.length - pos) := by
      rw [h1, h2]
    simp only [preparseLoop]
    rw [hmin, hB]

lemma concat_getLast_snd (idx : List (Nat × Nat)) (a t : Nat) :
    ((idx ++ [(a, t)]).getLast?.map Prod.snd) = some t := by
  rw [List.getLast?_concat]
  rfl

/-- Running the index loop over a span of well-formed encoded frames: each
frame is validated, indexed at its offset, checked for a timestamp
regression against the previously indexed entry, and skipped over. -/
lemma preparseLoop_frames (input stale8 : List Nat) (h8 : stale8.length = 8) :
    ∀ (F : List (Nat × List Nat)) (rest : List Nat) (a fuel : Nat) (tsB : List Nat)
      (idx : List (Nat × Nat)) (rs ooo : List Nat),
      tsB.length = 4 →
      input.drop a = encFrames F ++ rest →
      (∀ f ∈ F, f.1 < 2 ^ 32 ∧ f.2.length ≤ 65535) →
      input.length - a ≤ fuel →
      ∃ tsB2, tsB2.length = 4 ∧
        preparseLoop input stale8 fuel tsB idx rs ooo a =
          preparseLoop input stale8 fuel tsB2 (idx ++ frameEntries a F) rs
            (ooo ++ advOffsets (idx.getLast?.map Prod.snd) a F) (a + (encFrames F).length) := by
  intro F
  induction F with
  | nil =>
    intro rest a fuel tsB idx rs ooo h4 hdrop hwf hfuel
    exact ⟨tsB, h4, by simp [frameEntries, advOffsets, encFrames]⟩
  | cons f fs ih =>
    intro rest a fuel tsB idx rs ooo h4 hdrop hwf hfuel
    rw [encFrames_cons, List.append_assoc] at hdrop
    have hrem := remaining_encFrame input (encFrames fs ++ rest) a f.1 f.2 hdrop
    have hwff := hwf f (List.mem_cons_self f fs)
    cases fuel with
    | zero => omega
    | succ fu =>
      have hp : a < input.length := by omega
      have harg : a + min tsB.length (input.length - a) = a + 4 := by rw [h4]; omega
      have hts : readBuf input a tsB = u32le f.1 := by
        refine readBuf_exact input tsB (u32le f.1)
          (u64le f.2.length ++ (f.2 ++ (encFrames fs ++ rest))) a ?_ ?_
        · rw [hdrop]; simp [encFrame]
        · rw [u32le_length, h4]
      have hsize : readBuf input (a + 4) stale8 = u64le f.2.length :=
        readBuf_exact input stale8 (u64le f.2.length) (f.2 ++ (encFrames fs ++ rest)) (a + 4)
          (drop_encFrame_four input (encFrames fs ++ rest) a f.1 f.2 hdrop)
          (by rw [u64le_length, h8])
      have hraw : rawSizeAt input stale8 (a + 4) = f.2.length := by
        unfold rawSizeAt
        rw [hsize, leVal_u64le, Nat.mod_eq_of_lt (by omega)]
      have hs : ¬ 2 ^ 16 ≤ rawSizeAt input stale8 (a + min tsB.length (input.length - a)) := by
        rw [harg, hraw]; omega
      rw [preparseLoop_frame input stale8 fu tsB idx rs ooo a hp hs, harg, hraw, hts,
        leVal_u32le, Nat.mod_eq_of_lt hwff.1]
      have hdrop2 : input.drop (a + 12 + f.2.length) = encFrames fs ++ rest := by
        rw [← List.drop_drop, drop_encFrame_twelve input (encFrames fs ++ rest) a f.1 f.2 hdrop,
          List.drop_left]
      obtain ⟨tsB2, h42, heq⟩ := ih rest (a + 12 + f.2.length) fu (u32le f.1)
        (idx ++ [(a, f.1)]) rs
        (if tsRegress idx f.1 then ooo ++ [a] else ooo)
        (u32le_length f.1) hdrop2 (fun g hg => hwf g (List.mem_cons_of_mem f hg)) (by omega)
      rw [heq]
      refine ⟨tsB2, h42, ?_⟩
      have hlen : (encFrames (f :: fs)).length = 12 + f.2.length + (encFrames fs).length := by
        rw [encFrames_cons, List.length_append, encFrame_length]
      have hposeq : a + 12 + f.2.length + (encFrames fs).length = a + (encFrames (f :: fs)).length := by
        omega
      rw [preparseLoop_fuel_succ input stale8 fu _ _ _ _ _ (by omega), hposeq]
      have hidx : (idx ++ [(a, f.1)]) ++ frameEntries (a + 12 + f.2.length) fs =
          idx ++ frameEntries a (f :: fs) := by
        rw [List.append_assoc]
        rfl
      have hooo : (if tsRegress idx f.1 then ooo ++ [a] else ooo) ++
            advOffsets ((idx ++ [(a, f.1)]).getLast?.map Prod.snd) (a + 12 + f.2.length) fs =
          ooo ++ advOffsets (idx.getLast?.map Prod.snd) a (f :: fs) := by
        rw [concat_getLast_snd]
        show _ = ooo ++ ((if regressB (idx.getLast?.map Prod.snd) f.1 then [a] else []) ++
          advOffsets (some f.1) (a + 12 + f.2.length) fs)
        by_cases hreg : tsRegress idx f.1
        · have : regressB (idx.getLast?.map Prod.snd) f.1 = true := hreg
          rw [if_pos hreg, if_pos this, List.append_assoc]
        · have : ¬ regressB (idx.getLast?.map Prod.snd) f.1 = true := hreg
          rw [if_neg hreg, if_neg this, List.nil_append]
      rw [hidx, hooo]

/-- Running the index loop across a span of `k` offsets at each of which
the sync check fails: each retry records a resync event and advances the
cursor exactly one byte. -/
lemma preparseLoop_resyncSpan (input stale8 : List Nat) (h8 : stale8.length = 8) :
    ∀ (k a fuel : Nat) (tsB : List Nat) (idx : List (Nat × Nat)) (rs ooo : List Nat),
      tsB.length = 4 →
      (∀ o, a ≤ o → o < a + k → 2 ^ 16 ≤ leVal ((input.drop (o + 4)).take 8)) →
      a + k + 12 ≤ input.length →
      input.length - a ≤ fuel →
      ∃ tsB2, tsB2.length = 4 ∧
        preparseLoop input stale8 fuel tsB idx rs ooo a =
          preparseLoop input stale8 fuel tsB2 idx
            (rs ++ (List.range k).map (fun i => a + i)) ooo (a + k) := by
  intro k
  induction k with
  | zero =>
    intro a fuel tsB idx rs ooo h4 hfail hroom hfuel
    exact ⟨tsB, h4, by simp⟩
  | succ k ih =>
    intro a fuel tsB idx rs ooo h4 hfail hroom hfuel
    cases fuel with
    | zero => omega
    | succ fu =>
      have hp : a < input.length := by omega
      have harg : a + min tsB.length (input.length - a) = a + 4 := by rw [h4]; omega
      have hs : 2 ^ 16 ≤ rawSizeAt input stale8 (a + min tsB.length (input.length - a)) := by
        rw [harg]
        unfold rawSizeAt
        rw [readBuf_avail input stale8 (a + 4) (by omega), h8]
        exact hfail a le_rfl (by omega)
      rw [preparseLoop_resync input stale8 fu tsB idx rs ooo a hp hs]
      obtain ⟨tsB2, h42, heq⟩ := ih (a + 1) fu (readBuf input a tsB) idx (rs ++ [a]) ooo
        (by rw [readBuf_length, h4])
        (fun o ho1 ho2 => hfail o (by omega) (by omega))
        (by omega) (by omega)
      rw [heq]
      refine ⟨tsB2, h42, ?_⟩
      rw [preparseLoop_fuel_succ input stale8 fu _ _ _ _ _ (by omega)]
      have hpos : a + 1 + k = a + (k + 1) := by omega
      have hrange : (rs ++ [a]) ++ (List.range k).map (fun i => a + 1 + i) =
          rs ++ (List.range (k + 1)).map (fun i => a + i) := by
        rw [List.range_succ_eq_map, List.map_cons, List.map_map, List.append_assoc]
        have hfun : ((fun i => a + i) ∘ Nat.succ) = (fun i => a + 1 + i) := by
          funext i
          simp [Function.comp]
          omega
        rw [hfun]
        rfl
      rw [hpos, hrange]

lemma streamLoop_exit (input stale8 : List Nat) (fuel : Nat) (acc : List (Nat × List Nat))
    (reads pos : Nat) (h : input.length ≤ pos) :
    streamLoop input stale8 fuel acc reads pos = ⟨acc, StreamStatus.completed, reads⟩ := by
  cases fuel <;> simp [streamLoop, Nat.not_lt.mpr h]

lemma streamLoop_short (input stale8 : List Nat) (fuel : Nat) (acc : List (Nat × List Nat))
    (reads pos : Nat) (h2 : input.length - pos < 4) :
    streamLoop input stale8 fuel acc reads pos = ⟨acc, StreamStatus.completed, reads⟩ := by
  cases fuel with
  | zero => rfl
  | succ f =>
    by_cases h1 : pos < input.length
    · simp only [streamLoop]
      rw [if_pos h1, if_pos h2]
    · exact streamLoop_exit input stale8 _ acc reads pos (by omega)

lemma streamLoop_corrupt (input stale8 : List Nat) (fuel : Nat) (acc : List (Nat × List Nat))
    (reads pos : Nat) (h1 : pos < input.length) (h2 : ¬ input.length - pos < 4)
    (h3 : sizeFieldAt input stale8 (pos + 4) < 1 ∨
      1024 * 1024 < sizeFieldAt input stale8 (pos + 4)) :
    streamLoop input stale8 (fuel + 1) acc reads pos =
      ⟨acc, StreamStatus.stoppedOnCorruption, reads + 1⟩ := by
  simp only [streamLoop]
  rw [if_pos h1, if_neg h2, if_pos h3]

lemma streamLoop_trunc (input stale8 : List Nat) (fuel : Nat) (acc : List (Nat × List Nat))
    (reads pos : Nat) (h1 : pos < input.length) (h2 : ¬ input.length - pos < 4)
    (h3 : ¬ (sizeFieldAt input stale8 (pos + 4) < 1 ∨
      1024 * 1024 < sizeFieldAt input stale8 (pos + 4)))
    (h4 : ((input.length - afterSize input stale8 (pos + 4) : Nat) : Int) <
      sizeFieldAt input stale8 (pos + 4)) :
    streamLoop input stale8 (fuel + 1) acc reads pos =
      ⟨acc, StreamStatus.completed, reads + 1⟩ := by
  simp only [streamLoop]
  rw [if_pos h1, if_neg h2, if_neg h3, if_pos h4]

lemma streamLoop_step (input stale8 : List Nat) (fuel : Nat) (acc : List (Nat × List Nat))
    (reads pos : Nat) (h1 : pos < input.length) (h2 : ¬ input.length - pos < 4)
    (h3 : ¬ (sizeFieldAt input stale8 (pos + 4) < 1 ∨
      1024 * 1024 < sizeFieldAt input stale8 (pos + 4)))
    (h4 : ¬ ((input.length - afterSize input stale8 (pos + 4) : Nat) : Int) <
      sizeFieldAt input stale8 (pos + 4)) :
    streamLoop input stale8 (fuel + 1) acc reads pos =
      streamLoop input stale8 fuel
        (acc ++ [(leVal ((input.drop pos).take 4),
          (input.drop (afterSize input stale8 (pos + 4))).take
            (sizeFieldAt input stale8 (pos + 4)).toNat)])
        (reads + 1)
        (afterSize input stale8 (pos + 4) + (sizeFieldAt input stale8 (pos + 4)).toNat) := by
  simp only [streamLoop]
  rw [if_pos h1, if_neg h2, if_neg h3, if_neg h4]

lemma streamLoop_fuel_succ (input stale8 : List Nat) :
    ∀ (fuel : Nat) (acc : List (Nat × List Nat)) (reads pos : Nat),
      input.length - pos ≤ fuel →
      streamLoop input stale8 fuel acc reads pos =
        streamLoop input stale8 (fuel + 1) acc reads pos := by
  intro fuel
  induction fuel with
  | zero =>
    intro acc reads pos h
    rw [streamLoop_exit input stale8 0 acc reads pos (by omega),
      streamLoop_exit input stale8 1 acc reads pos (by omega)]
  | succ f ih =>
    intro acc reads pos h
    by_cases h1 : pos < input.length
    · by_cases h2 : input.length - pos < 4
      · rw [streamLoop_short input stale8 _ acc reads pos h2,
          streamLoop_short input stale8 _ acc reads pos h2]
      · by_cases h3 : sizeFieldAt input stale8 (pos + 4) < 1 ∨
            1024 * 1024 < sizeFieldAt input stale8 (pos + 4)
        · rw [streamLoop_corrupt input stale8 _ acc reads pos h1 h2 h3,
            streamLoop_corrupt input stale8 _ acc reads pos h1 h2 h3]
        · by_cases h4 : ((input.length - afterSize input stale8 (pos + 4) : Nat) : Int) <
              sizeFieldAt input stale8 (pos + 4)
          · rw [streamLoop_trunc input stale8 _ acc reads pos h1 h2 h3 h4,
              streamLoop_trunc input stale8 _ acc reads pos h1 h2 h3 h4]
          · rw [streamLoop_step input stale8 _ acc reads pos h1 h2 h3 h4,
              streamLoop_step input stale8 _ acc reads pos h1 h2 h3 h4]
            refine ih _ _ _ ?_
            have hge : pos + 4 ≤ afterSize input stale8 (pos + 4) := by
              unfold afterSize
              omega
            omega
    · rw [streamLoop_exit input stale8 _ acc reads pos (by omega),
        streamLoop_exit input stale8 _ acc reads pos (by omega)]

lemma streamLoop_fuel_le (input stale8 : List Nat) (f1 f2 : Nat) (acc : List (Nat × List Nat))
    (reads pos : Nat) (h1 : input.length - pos ≤ f1) (h12 : f1 ≤ f2) :
    streamLoop input stale8 f1 acc reads pos = streamLoop input stale8 f2 acc reads pos := by
  induction f2 with
  | zero =>
    have : f1 = 0 := by omega
    rw [this]
  | succ f ih =>
    by_cases hf : f1 = f + 1
    · rw [hf]
    · have hle : f1 ≤ f := by omega
      rw [ih hle, streamLoop_fuel_succ input stale8 f acc reads pos (by omega)]

lemma streamLoop_reads_mono (input stale8 : List Nat) :
    ∀ (fuel : Nat) (acc : List (Nat × List Nat)) (reads pos : Nat),
      reads ≤ (streamLoop input stale8 fuel acc reads pos).headerReads := by
  intro fuel
  induction fuel with
  | zero => intro acc reads pos; exact le_rfl
  | succ f ih =>
    intro acc reads pos
    by_cases h1 : pos < input.length
    · by_cases h2 : input.length - pos < 4
      · rw [streamLoop_short input stale8 _ acc reads pos h2]
      · by_cases h3 : sizeFieldAt input stale8 (pos + 4) < 1 ∨
            1024 * 1024 < sizeFieldAt input stale8 (pos + 4)
        · rw [streamLoop_corrupt input stale8 _ acc reads pos h1 h2 h3]
          exact Nat.le_succ reads
        · by_cases h4 : ((input.length - afterSize input stale8 (pos + 4) : Nat) : Int) <
              sizeFieldAt input stale8 (pos + 4)
          · rw [streamLoop_trunc input stale8 _ acc reads pos h1 h2 h3 h4]
            exact Nat.le_succ reads
          · rw [streamLoop_step input stale8 _ acc reads pos h1 h2 h3 h4]
            exact le_trans (Nat.le_succ reads) (ih _ _ _)
    · rw [streamLoop_exit input stale8 _ acc reads pos (by omega)]

/-- Running the streaming loop over a span of well-formed encoded frames
whose payload lengths pass the sanity bound: each frame's header is read,
its payload is forwarded to the sink, and the cursor moves to the next
frame. -/
lemma streamLoop_frames (input stale8 : List Nat) (h8 : stale8.length = 8) :
    ∀ (F : List (Nat × List Nat)) (rest : List Nat) (a fuel : Nat)
      (acc : List (Nat × List Nat)) (reads : Nat),
      input.drop a = encFrames F ++ rest →
      (∀ f ∈ F, f.1 < 2 ^ 32 ∧ 1 ≤ f.2.length ∧ f.2.length ≤ 1024 * 1024) →
      input.length - a ≤ fuel →
      streamLoop input stale8 fuel acc reads a =
        streamLoop input stale8 fuel (acc ++ F) (reads + F.length)
          (a + (encFrames F).length) := by
  intro F
  induction F with
  | nil =>
    intro rest a fuel acc reads hdrop hwf hfuel
    simp [encFrames]
  | cons f fs ih =>
    intro rest a fuel acc reads hdrop hwf hfuel
    rw [encFrames_cons, List.append_assoc] at hdrop
    have hrem := remaining_encFrame input (encFrames fs ++ rest) a f.1 f.2 hdrop
    have hwff := hwf f (List.mem_cons_self f fs)
    cases fuel with
    | zero => omega
    | succ fu =>
      have h1 : a < input.length := by omega
      have h2 : ¬ input.length - a < 4 := by omega
      have hsize : readBuf input (a + 4) stale8 = u64le f.2.length :=
        readBuf_exact input stale8 (u64le f.2.length) (f.2 ++ (encFrames fs ++ rest)) (a + 4)
          (drop_encFrame_four input (encFrames fs ++ rest) a f.1 f.2 hdrop)
          (by rw [u64le_length, h8])
      have hraw : rawSizeAt input stale8 (a + 4) = f.2.length := by
        unfold rawSizeAt
        rw [hsize, leVal_u64le, Nat.mod_eq_of_lt (by omega)]
      have hsf : sizeFieldAt input stale8 (a + 4) = (f.2.length : Int) := by
        unfold sizeFieldAt toSigned64
        rw [hraw, if_pos (by omega)]
      have hafter : afterSize input stale8 (a + 4) = a + 12 := by
        unfold afterSize
        rw [h8]
        omega
      have h3 : ¬ (sizeFieldAt input stale8 (a + 4) < 1 ∨
          1024 * 1024 < sizeFieldAt input stale8 (a + 4)) := by
        rw [hsf]
        push_neg
        constructor
        · exact_mod_cast hwff.2.1
        · exact_mod_cast hwff.2.2
      have h4 : ¬ ((input.length - afterSize input stale8 (a + 4) : Nat) : Int) <
          sizeFieldAt input stale8 (a + 4) := by
        rw [hsf, hafter]
        push_neg
        have : f.2.length ≤ input.length - (a + 12) := by omega
        exact_mod_cast this
      rw [streamLoop_step input stale8 fu acc reads a h1 h2 h3 h4]
      have hts : (input.drop a).take 4 = u32le f.1 := by
        rw [hdrop]
        have : encFrame f.1 f.2 ++ (encFrames fs ++ rest) =
            u32le f.1 ++ (u64le f.2.length ++ (f.2 ++ (encFrames fs ++ rest))) := by
          simp [encFrame]
        rw [this, List.take_left' (u32le_length f.1)]
      have hpay : (input.drop (afterSize input stale8 (a + 4))).take
          (sizeFieldAt input stale8 (a + 4)).toNat = f.2 := by
        rw [hsf, hafter, Int.toNat_natCast,
          drop_encFrame_twelve input (encFrames fs ++ rest) a f.1 f.2 hdrop,
          List.take_left]
      rw [hts, leVal_u32le, Nat.mod_eq_of_lt hwff.1, hpay, hsf, hafter, Int.toNat_natCast]
      have hdrop2 : input.drop (a + 12 + f.2.length) = encFrames fs ++ rest := by
        rw [← List.drop_drop, drop_encFrame_twelve input (encFrames fs ++ rest) a f.1 f.2 hdrop,
          List.drop_left]
      rw [ih rest (a + 12 + f.2.length) fu (acc ++ [(f.1, f.2)]) (reads + 1) hdrop2
        (fun g hg => hwf g (List.mem_cons_of_mem f hg)) (by omega)]
      rw [streamLoop_fuel_succ input stale8 fu _ _ _ (by omega)]
      have hlen : (encFrames (f :: fs)).length = 12 + f.2.length + (encFrames fs).length := by
        rw [encFrames_cons, List.length_append, encFrame_length]
      have hposeq : a + 12 + f.2.length + (encFrames fs).length =
          a + (encFrames (f :: fs)).length := by omega
      rw [hposeq, List.append_assoc]
      have : [(f.1, f.2)] ++ fs = f :: fs := by
        rw [List.singleton_append]
      rw [this]
      have hreads : reads + 1 + fs.length = reads + (f :: fs).length := by
        rw [List.length_cons]
        omega
      rw [hreads]

lemma frameEntries_length (F : List (Nat × List Nat)) : ∀ a, (frameEntries a F).length = F.length := by
  induction F with
  | nil => intro a; rfl
  | cons f fs ih =>
    intro a
    simp [frameEntries, ih]

lemma frameEntries_ne_nil (F : List (Nat × List Nat)) (a : Nat) (h : F ≠ []) :
    frameEntries a F ≠ [] := by
  cases F with
  | nil => exact absurd rfl h
  | cons f fs => simp [frameEntries]

lemma frameEntries_head? (f : Nat × List Nat) (fs : List (Nat × List Nat)) (a : Nat) :
    (frameEntries a (f :: fs)).head? = some (a, f.1) := rfl

lemma frameEntries_chain (F : List (Nat × List Nat)) :
    ∀ a, List.Chain' (fun e e2 => e.1 < e2.1) (frameEntries a F) := by
  induction F with
  | nil => intro a; exact List.chain'_nil
  | cons f fs ih =>
    intro a
    show List.Chain' _ ((a, f.1) :: frameEntries (a + 12 + f.2.length) fs)
    rw [List.chain'_cons']
    refine ⟨?_, ih _⟩
    intro b hb
    cases fs with
    | nil => simp [frameEntries] at hb
    | cons g gs =>
      rw [frameEntries_head? g gs] at hb
      cases hb
      show a < a + 12 + f.2.length
      omega

lemma frameEntries_getElem? (F : List (Nat × List Nat)) :
    ∀ (a i : Nat) (f : Nat × List Nat), F[i]? = some f →
      (frameEntries a F)[i]? = some (frameOffset a F i, f.1) := by
  induction F with
  | nil => intro a i f h; simp at h
  | cons g gs ih =>
    intro a i f h
    cases i with
    | zero =>
      simp at h
      subst h
      simp [frameEntries, frameOffset]
    | succ i =>
      rw [List.getElem?_cons_succ] at h
      have hrec := ih (a + 12 + g.2.length) i f h
      simp only [frameEntries, List.getElem?_cons_succ]
      rw [hrec]
      simp [frameOffset]

lemma frameOffset_succ (F : List (Nat × List Nat)) :
    ∀ (a i : Nat) (f : Nat × List Nat), F[i]? = some f →
      frameOffset a F (i + 1) = frameOffset a F i + 12 + f.2.length := by
  induction F with
  | nil => intro a i f h; simp at h
  | cons g gs ih =>
    intro a i f h
    cases i with
    | zero =>
      simp at h
      subst h
      simp [frameOffset]
    | succ i =>
      rw [List.getElem?_cons_succ] at h
      have hrec := ih (a + 12 + g.2.length) i f h
      simp only [frameOffset]
      exact hrec

lemma advOffsets_mem (F : List (Nat × List Nat)) :
    ∀ (prev : Option Nat) (a i : Nat) (f g : Nat × List Nat),
      F[i]? = some f → F[i + 1]? = some g → g.1 < f.1 →
      frameOffset a F (i + 1) ∈ advOffsets prev a F := by
  induction F with
  | nil => intro prev a i f g h1 h2 h3; simp at h1
  | cons e es ih =>
    intro prev a i f g h1 h2 h3
    cases i with
    | zero =>
      simp at h1
      rw [List.getElem?_cons_succ] at h2
      cases es with
      | nil => simp at h2
      | cons e2 es2 =>
        simp at h2
        subst h1
        subst h2
        simp only [frameOffset, advOffsets]
        refine List.mem_append_right _ ?_
        have hreg : regressB (some e.1) e2.1 = true := by
          simp [regressB, h3]
        rw [hreg, if_pos rfl]
        exact List.mem_append_left _ (by simp [frameOffset])
    | succ i =>
      rw [List.getElem?_cons_succ] at h1
      rw [List.getElem?_cons_succ] at h2
      simp only [frameOffset, advOffsets]
      exact List.mem_append_right _ (ih (some e.1) (a + 12 + e.2.length) i f g h1 h2 h3)

/-- On a log that is exactly a sequence of well-formed frames, the index
pass succeeds and produces one entry per frame, records no resync,
records the out-of-order advisories, and restores the cursor to the
start offset. -/
lemma preparse_encFrames (stale8 : List Nat) (F : List (Nat × List Nat))
    (h8 : stale8.length = 8)
    (hwf : ∀ f ∈ F, f.1 < 2 ^ 32 ∧ f.2.length ≤ 65535) (hne : F ≠ []) :
    preparseLogFile stale8 (encFrames F) 0 =
      some ⟨frameEntries 0 F, [], advOffsets none 0 F, 0⟩ := by
  obtain ⟨tsB2, h42, heq⟩ := preparseLoop_frames (encFrames F) stale8 h8 F [] 0
    ((encFrames F).length + 1) [0, 0, 0, 0] [] [] [] rfl (by simp) hwf (by omega)
  have hexit : preparseLoop (encFrames F) stale8 ((encFrames F).length + 1) tsB2
      ([] ++ frameEntries 0 F) []
      ([] ++ advOffsets (([] : List (Nat × Nat)).getLast?.map Prod.snd) 0 F)
      (0 + (encFrames F).length) =
      ⟨frameEntries 0 F, [], advOffsets none 0 F, (encFrames F).length⟩ := by
    rw [preparseLoop_exit _ _ _ _ _ _ _ _ (by omega)]
    simp
  rw [← heq] at hexit
  unfold preparseLogFile
  rw [hexit]
  rw [if_neg (by simpa using frameEntries_ne_nil F 0 hne)]

/-- C3 (amended: at least one frame): for a well-formed input of N ≥ 1
encoded frames, the Index Builder succeeds and produces an index with
exactly N entries, one per frame, in file order, with strictly increasing
byte offsets; each frame's index offset is the previous frame's offset
plus the 12 header bytes plus the previous payload length.  (The original
claim also covered N = 0, where the builder instead fails with EmptyLog;
see the counterexample.) -/
theorem claim3_amended (stale8 : List Nat) (F : List (Nat × List Nat))
    (h8 : stale8.length = 8)
    (hwf : ∀ f ∈ F, f.1 < 2 ^ 32 ∧ f.2.length ≤ 65535) (hne : F ≠ []) :
    ∃ r, preparseLogFile stale8 (encFrames F) 0 = some r ∧
      r.index = frameEntries 0 F ∧
      r.index.length = F.length ∧
      List.Chain' (fun e e2 => e.1 < e2.1) r.index ∧
      (∀ i f, F[i]? = some f → r.index[i]? = some (frameOffset 0 F i, f.1)) ∧
      (∀ i f, F[i]? = some f →
        frameOffset 0 F (i + 1) = frameOffset 0 F i + 12 + f.2.length) := by
  refine ⟨⟨frameEntries 0 F, [], advOffsets none 0 F, 0⟩,
    preparse_encFrames stale8 F h8 hwf hne, rfl, frameEntries_length F 0,
    frameEntries_chain F 0, ?_, ?_⟩
  · intro i f hf
    exact frameEntries_getElem? F 0 i f hf
  · intro i f hf
    exact frameOffset_succ F 0 i f hf

/-- C3 counterexample: the empty input is a well-formed input of N = 0
frames, but the Index Builder does not produce an index with 0 entries:
it fails (EmptyLog) and returns no index at all. -/
theorem claim3_counterexample : preparseLogFile zeros8 (encFrames []) 0 = none := by
  decide

/-- C3 witness: the amended theorem applied to a concrete three-frame log. -/
theorem claim3_witness :
    ∃ r, preparseLogFile zeros8 (encFrames [(3, [1, 2]), (9, []), (4, [8, 8, 8])]) 0 = some r ∧
      r.index = frameEntries 0 [(3, [1, 2]), (9, []), (4, [8, 8, 8])] ∧
      r.index.length = 3 := by
  obtain ⟨r, h1, h2, h3, -⟩ :=
    claim3_amended zeros8 [(3, [1, 2]), (9, []), (4, [8, 8, 8])] (by decide) (by decide)
      (by decide)
  exact ⟨r, h1, h2, h3⟩

/-- C7: on a well-formed log the Index Builder succeeds whatever the
timestamps are — an out-of-order timestamp never aborts the pass; every
frame is still indexed, the advisory offsets are exactly `advOffsets`,
and whenever a frame's timestamp is strictly below its predecessor's, the
advisory fires at that frame's offset and the frame is nonetheless in the
index. -/
theorem claim7 (stale8 : List Nat) (F : List (Nat × List Nat)) (h8 : stale8.length = 8)
    (hwf : ∀ f ∈ F, f.1 < 2 ^ 32 ∧ f.2.length ≤ 65535) (hne : F ≠ []) :
    ∃ r, preparseLogFile stale8 (encFrames F) 0 = some r ∧
      r.index = frameEntries 0 F ∧
      r.index.length = F.length ∧
      r.ooo = advOffsets none 0 F ∧
      (∀ i f g, F[i]? = some f → F[i + 1]? = some g → g.1 < f.1 →
        frameOffset 0 F (i + 1) ∈ r.ooo ∧
          r.index[i + 1]? = some (frameOffset 0 F (i + 1), g.1)) := by
  refine ⟨⟨frameEntries 0 F, [], advOffsets none 0 F, 0⟩,
    preparse_encFrames stale8 F h8 hwf hne, rfl, frameEntries_length F 0, rfl, ?_⟩
  intro i f g h1 h2 h3
  exact ⟨advOffsets_mem F none 0 i f g h1 h2 h3,
    frameEntries_getElem? F 0 (i + 1) g h2⟩

/-- C7 witness: a two-frame log whose second timestamp (3) regresses below
the first (5): the pass succeeds, both frames are indexed, and the
advisory fires at the second frame's offset (13). -/
theorem claim7_witness :
    ∃ r, preparseLogFile zeros8 (encFrames [(5, [0]), (3, [0])]) 0 = some r ∧
      r.ooo = advOffsets none 0 [(5, [0]), (3, [0])] ∧
      frameOffset 0 [(5, [0]), (3, [0])] 1 ∈ r.ooo ∧
      r.index[1]? = some (frameOffset 0 [(5, [0]), (3, [0])] 1, 3) := by
  obtain ⟨r, h1, -, -, h4, h5⟩ :=
    claim7 zeros8 [(5, [0]), (3, [0])] (by decide) (by decide) (by decide)
  obtain ⟨h6, h7⟩ := h5 0 (5, [0]) (3, [0]) (by decide) (by decide) (by decide)
  exact ⟨r, h1, h4, h6, h7⟩

/-- C5 (amended): the index pass fails (EmptyLog) exactly when it
validated zero frames — in particular on the empty input — and a
successful pass never carries an empty index.  (The original claim also
asserted that any input shorter than one complete frame validates zero
frames; that is false — the builder indexes a lone header whose declared
payload is absent — see the counterexample.) -/
theorem claim5_amended (stale8 input : List Nat) (start : Nat) :
    ((preparseLoop input stale8 (input.length + 1) [0, 0, 0, 0] [] [] [] start).index = [] →
      preparseLogFile stale8 input start = none) ∧
    (∀ r, preparseLogFile stale8 input start = some r → r.index ≠ []) := by
  constructor
  · intro h
    unfold preparseLogFile
    rw [if_pos h]
  · intro r h
    unfold preparseLogFile at h
    split at h
    next hc => cases h
    next hc =>
      cases h
      simpa using hc

/-- C5 witness: the empty input validates zero frames and the pass fails. -/
theorem claim5_witness : preparseLogFile zeros8 [] 0 = none :=
  (claim5_amended zeros8 [] 0).1 (by decide)

/-- C5 counterexample: a 12-byte, header-only input declaring a 5-byte
payload that is entirely absent (so the input is shorter than one complete
frame, 12 < 17) is still indexed as one frame and the pass succeeds,
contrary to the claim that such inputs yield EmptyLog. -/
theorem claim5_counterexample :
    preparseLogFile zeros8 [0, 0, 0, 0, 5, 0, 0, 0, 0, 0, 0, 0] 0 =
      some ⟨[(0, 0)], [], [], 0⟩ := by
  decide

/-- C8: whenever the Index Builder succeeds, the returned cursor position
equals the start offset the pass began at, and the produced index is
non-empty, regardless of the input, the stale buffer contents, how many
frames were indexed or how many resyncs occurred. -/
theorem claim8 (stale8 input : List Nat) (start : Nat) (r : PreResult)
    (h : preparseLogFile stale8 input start = some r) :
    r.finalPos = start ∧ r.index ≠ [] := by
  unfold preparseLogFile at h
  split at h
  next hc => cases h
  next hc =>
    cases h
    exact ⟨rfl, by simpa using hc⟩

/-- C8 witness: a concrete successful pass (one zero-size frame) returns
with the cursor back at the start offset 0. -/
theorem claim8_witness :
    (⟨[(0, 1)], [], [], 0⟩ : PreResult).finalPos = 0 ∧
      (⟨[(0, 1)], [], [], 0⟩ : PreResult).index ≠ [] :=
  claim8 zeros8 [1, 0, 0, 0, 0, 0, 0, 0, 0, 0, 0, 0] 0 ⟨[(0, 1)], [], [], 0⟩ (by decide)

/-- C2 (amended: no false-positive header inside the corrupted span): on a
log made of well-formed frames `A`, a non-empty corrupted span `J` at
every candidate offset of which the sync check fails, and further
well-formed frames `B`, the Index Builder discards each failing candidate
and advances exactly one byte per retry (one resync event per byte of the
span, at consecutive offsets), and the resulting index omits the
corrupted span while containing entries for all frames before and after
it.  (Without the no-false-positive hypothesis the original claim is
false — see the counterexample, where the resync lands inside the
corrupted span and the valid frame after it is skipped.) -/
theorem claim2_amended (stale8 : List Nat) (A B : List (Nat × List Nat)) (J : List Nat)
    (h8 : stale8.length = 8)
    (hA : ∀ f ∈ A, f.1 < 2 ^ 32 ∧ f.2.length ≤ 65535)
    (hB : ∀ f ∈ B, f.1 < 2 ^ 32 ∧ f.2.length ≤ 65535)
    (hBne : B ≠ []) (hJne : J ≠ [])
    (hfail : ∀ o, (encFrames A).length ≤ o → o < (encFrames A).length + J.length →
      2 ^ 16 ≤ leVal (((encFrames A ++ J ++ encFrames B).drop (o + 4)).take 8)) :
    ∃ r, preparseLogFile stale8 (encFrames A ++ J ++ encFrames B) 0 = some r ∧
      r.index = frameEntries 0 A ++ frameEntries ((encFrames A).length + J.length) B ∧
      r.resyncs = (List.range J.length).map (fun i => (encFrames A).length + i) := by
  have hBlen : 12 ≤ (encFrames B).length := encFrames_length_ge B hBne
  have hlen : (encFrames A ++ J ++ encFrames B).length =
      (encFrames A).length + J.length + (encFrames B).length := by
    simp [List.length_append]
    omega
  have hdropA : (encFrames A ++ J ++ encFrames B).drop 0 =
      encFrames A ++ (J ++ encFrames B) := by
    simp [List.append_assoc]
  obtain ⟨tsB1, h41, heq1⟩ := preparseLoop_frames (encFrames A ++ J ++ encFrames B) stale8 h8
    A (J ++ encFrames B) 0 ((encFrames A ++ J ++ encFrames B).length + 1)
    [0, 0, 0, 0] [] [] [] rfl hdropA hA (by omega)
  simp only [List.nil_append, Nat.zero_add, List.getLast?_nil, Option.map_none'] at heq1
  obtain ⟨tsB2, h42, heq2⟩ := preparseLoop_resyncSpan (encFrames A ++ J ++ encFrames B) stale8
    h8 J.length (encFrames A).length ((encFrames A ++ J ++ encFrames B).length + 1)
    tsB1 (frameEntries 0 A) [] (advOffsets none 0 A) h41 hfail (by omega) (by omega)
  simp only [List.nil_append] at heq2
  have hdropB : (encFrames A ++ J ++ encFrames B).drop ((encFrames A).length + J.length) =
      encFrames B ++ [] := by
    rw [List.append_nil]
    exact List.drop_left' (by rw [List.length_append])
  obtain ⟨tsB3, h43, heq3⟩ := preparseLoop_frames (encFrames A ++ J ++ encFrames B) stale8 h8
    B [] ((encFrames A).length + J.length) ((encFrames A ++ J ++ encFrames B).length + 1)
    tsB2 (frameEntries 0 A)
    ((List.range J.length).map (fun i => (encFrames A).length + i))
    (advOffsets none 0 A) h42 hdropB hB (by omega)
  have hexit := preparseLoop_exit (encFrames A ++ J ++ encFrames B) stale8
    ((encFrames A ++ J ++ encFrames B).length + 1) tsB3
    (frameEntries 0 A ++
      frameEntries ((encFrames A).length + J.length) B)
    ((List.range J.length).map (fun i => (encFrames A).length + i))
    (advOffsets none 0 A ++
      advOffsets ((frameEntries 0 A).getLast?.map Prod.snd) ((encFrames A).length + J.length) B)
    ((encFrames A).length + J.length + (encFrames B).length) (by omega)
  have hloop := (heq1.trans (heq2.trans heq3)).trans hexit
  have hne2 : frameEntries 0 A ++
      frameEntries ((encFrames A).length + J.length) B ≠ [] := by
    intro hcontra
    exact frameEntries_ne_nil B ((encFrames A).length + J.length) hBne
      (List.append_eq_nil.mp hcontra).2
  refine ⟨⟨frameEntries 0 A ++ frameEntries ((encFrames A).length + J.length) B,
    (List.range J.length).map (fun i => (encFrames A).length + i),
    advOffsets none 0 A ++
      advOffsets ((frameEntries 0 A).getLast?.map Prod.snd) ((encFrames A).length + J.length) B,
    0⟩, ?_, rfl, rfl⟩
  unfold preparseLogFile
  rw [hloop]
  rw [if_neg (by simpa using hne2)]

/-- C2 counterexample: a log with a single corrupted header at offset 0
(size field 0x10000: high 48 bits non-zero) followed by a valid frame at
offset 12 (timestamp 5, payload length 0).  The resync advances one byte
at a time but at offset 7 the scanned size field (bytes 11..18) happens to
pass the sync check (value 1280), so the builder indexes the bogus entry
(7, 0) — inside the corrupted span — and seeks past the valid frame at
offset 12, which is therefore missing from the index: the index neither
omits the corrupted span nor contains the valid frame after it. -/
theorem claim2_counterexample :
    preparseLogFile zeros8
        ([0, 0, 0, 0, 0, 0, 1, 0, 0, 0, 0, 0] ++ [5, 0, 0, 0, 0, 0, 0, 0, 0, 0, 0, 0]) 0 =
      some ⟨[(7, 0)], [0, 1, 2, 3, 4, 5, 6], [], 0⟩ ∧
    ([0, 0, 0, 0, 0, 0, 1, 0, 0, 0, 0, 0] ++
        [5, 0, 0, 0, 0, 0, 0, 0, 0, 0, 0, 0] : List Nat).drop 12 = encFrame 5 [] ∧
    ((7, 0) : Nat × Nat).1 ≠ 12 ∧ (12, 5) ∉ [((7 : Nat), (0 : Nat))] := by
  decide

set_option maxRecDepth 8000 in
/-- C2 witness: the amended theorem applied to a one-byte corrupted span
followed by a single valid frame with a 256-byte payload (whose size
field's second byte makes the sync check fail at the span's only
candidate offset). -/
theorem claim2_witness :
    ∃ r, preparseLogFile zeros8
        (encFrames [] ++ [7] ++ encFrames [(0, List.replicate 256 0)]) 0 = some r ∧
      r.index = frameEntries 0 [] ++
        frameEntries ((encFrames ([] : List (Nat × List Nat))).length + 1)
          [(0, List.replicate 256 0)] ∧
      r.resyncs = (List.range 1).map
        (fun i => (encFrames ([] : List (Nat × List Nat))).length + i) := by
  refine claim2_amended zeros8 [] [(0, List.replicate 256 0)] [7] (by decide) (by decide)
    (by decide) (by decide) (by decide) ?_
  intro o h1 h2
  have h0 : (encFrames ([] : List (Nat × List Nat))).length = 0 := rfl
  have h7 : ([7] : List Nat).length = 1 := rfl
  rw [h0, h7] at h2
  have : o = 0 := by omega
  subst this
  decide

/-- C10: the two passes disagree on a frame whose 8-byte size field is
exactly zero: the Index Builder's sync check passes (high 48 bits zero),
the entry is appended and the builder advances 12 bytes to end of input
(index pass succeeds with 1 entry), while the Frame Streamer treats the
same frame as fatal corruption (packet size < 1) and forwards 0 frames,
so the index reports strictly more frames than streaming forwards. -/
theorem claim10 :
    preparseLogFile zeros8 [0, 0, 0, 0, 0, 0, 0, 0, 0, 0, 0, 0] 0 =
      some ⟨[(0, 0)], [], [], 0⟩ ∧
    (preparseLoop [0, 0, 0, 0, 0, 0, 0, 0, 0, 0, 0, 0] zeros8 13
      [0, 0, 0, 0] [] [] [] 0).finalPos = 12 ∧
    parseLogFile zeros8 [0, 0, 0, 0, 0, 0, 0, 0, 0, 0, 0, 0] =
      ⟨[], StreamStatus.stoppedOnCorruption, 1⟩ ∧
    (parseLogFile zeros8 [0, 0, 0, 0, 0, 0, 0, 0, 0, 0, 0, 0]).frames.length <
      (preparseLogFile zeros8 [0, 0, 0, 0, 0, 0, 0, 0, 0, 0, 0, 0] 0).elim 0
        (fun r => r.index.length) := by
  decide

/-- C1: a log of K frames that pass the sync check and the streamer's
sanity bound (so 1 ≤ payload length ≤ 0xFFFF), followed by a frame whose
size field decodes (as qint64) to 0 or to a value above 1 MiB, makes the
Frame Streamer forward exactly the K frames' payloads to the sink in file
order, stop at the bad frame without forwarding any of its bytes, retain
the K frames as the final result, and end with StoppedOnCorruption. -/
theorem claim1 (stale8 : List Nat) (F : List (Nat × List Nat)) (t2 v : Nat) (rest : List Nat)
    (h8 : stale8.length = 8)
    (hwf : ∀ f ∈ F, f.1 < 2 ^ 32 ∧ 1 ≤ f.2.length ∧ f.2.length ≤ 65535)
    (hv : v < 2 ^ 64)
    (hbad : toSigned64 v = 0 ∨ (1024 * 1024 : Int) < toSigned64 v) :
    parseLogFile stale8 (encFrames F ++ (u32le t2 ++ u64le v ++ rest)) =
      ⟨F, StreamStatus.stoppedOnCorruption, F.length + 1⟩ := by
  have hwf2 : ∀ f ∈ F, f.1 < 2 ^ 32 ∧ 1 ≤ f.2.length ∧ f.2.length ≤ 1024 * 1024 :=
    fun f hf => ⟨(hwf f hf).1, (hwf f hf).2.1, le_trans (hwf f hf).2.2 (by norm_num)⟩
  have hstep := streamLoop_frames (encFrames F ++ (u32le t2 ++ u64le v ++ rest)) stale8 h8
    F (u32le t2 ++ u64le v ++ rest) 0
    ((encFrames F ++ (u32le t2 ++ u64le v ++ rest)).length + 1) [] 0 (by simp) hwf2 (by omega)
  simp only [List.nil_append, Nat.zero_add] at hstep
  have hdropF : (encFrames F ++ (u32le t2 ++ u64le v ++ rest)).drop (encFrames F).length =
      u32le t2 ++ u64le v ++ rest := List.drop_left _ _
  have hnd := List.length_drop (encFrames F).length (encFrames F ++ (u32le t2 ++ u64le v ++ rest))
  rw [hdropF] at hnd
  have h12 : (u32le t2 ++ u64le v ++ rest).length = 12 + rest.length := by
    rw [List.length_append, List.length_append, u32le_length, u64le_length]
  have hrem : (encFrames F ++ (u32le t2 ++ u64le v ++ rest)).length - (encFrames F).length =
      12 + rest.length := by omega
  have h1 : (encFrames F).length < (encFrames F ++ (u32le t2 ++ u64le v ++ rest)).length := by
    omega
  have h2 : ¬ (encFrames F ++ (u32le t2 ++ u64le v ++ rest)).length - (encFrames F).length < 4 := by
    omega
  have hdropF4 : (encFrames F ++ (u32le t2 ++ u64le v ++ rest)).drop ((encFrames F).length + 4) =
      u64le v ++ rest := by
    rw [← List.drop_drop, hdropF, List.append_assoc, List.drop_left' (u32le_length t2)]
  have hsize : readBuf (encFrames F ++ (u32le t2 ++ u64le v ++ rest)) ((encFrames F).length + 4)
      stale8 = u64le v :=
    readBuf_exact _ stale8 (u64le v) rest _ hdropF4 (by rw [u64le_length, h8])
  have hsf : sizeFieldAt (encFrames F ++ (u32le t2 ++ u64le v ++ rest)) stale8
      ((encFrames F).length + 4) = toSigned64 v := by
    unfold sizeFieldAt rawSizeAt
    rw [hsize, leVal_u64le, Nat.mod_eq_of_lt hv]
  have h3 : sizeFieldAt (encFrames F ++ (u32le t2 ++ u64le v ++ rest)) stale8
        ((encFrames F).length + 4) < 1 ∨
      1024 * 1024 < sizeFieldAt (encFrames F ++ (u32le t2 ++ u64le v ++ rest)) stale8
        ((encFrames F).length + 4) := by
    rw [hsf]
    rcases hbad with h | h
    · left
      rw [h]
      norm_num
    · right
      exact h
  unfold parseLogFile
  rw [hstep]
  exact streamLoop_corrupt _ stale8 _ F F.length (encFrames F).length h1 h2 h3

/-- C1 witness: one good frame (timestamp 7, payload [9]) followed by a
header whose size field is 0: the single good payload is forwarded and
the stream stops with StoppedOnCorruption. -/
theorem claim1_witness :
    parseLogFile zeros8 (encFrames [(7, [9])] ++ (u32le 0 ++ u64le 0 ++ [])) =
      ⟨[(7, [9])], StreamStatus.stoppedOnCorruption, 2⟩ :=
  claim1 zeros8 [(7, [9])] 0 0 [] (by decide) (by decide) (by decide) (Or.inl (by decide))

/-- C6 (amended: the declared length is within the sanity bounds): a log
of complete frames followed by a final frame whose declared payload
length L satisfies 1 ≤ L ≤ 1 MiB but exceeds the bytes remaining after
its header is treated as a normal end of stream: status Completed, no
corruption, and all prior complete frames retained.  (When the declared
length also violates the sanity bound the code stops with
StoppedOnCorruption instead — see the counterexample.) -/
theorem claim6_amended (stale8 : List Nat) (F : List (Nat × List Nat)) (t2 L : Nat)
    (frag : List Nat) (h8 : stale8.length = 8)
    (hwf : ∀ f ∈ F, f.1 < 2 ^ 32 ∧ 1 ≤ f.2.length ∧ f.2.length ≤ 65535)
    (hL1 : 1 ≤ L) (hL2 : L ≤ 1024 * 1024) (hshort : frag.length < L) :
    parseLogFile stale8 (encFrames F ++ (u32le t2 ++ u64le L ++ frag)) =
      ⟨F, StreamStatus.completed, F.length + 1⟩ := by
  have hwf2 : ∀ f ∈ F, f.1 < 2 ^ 32 ∧ 1 ≤ f.2.length ∧ f.2.length ≤ 1024 * 1024 :=
    fun f hf => ⟨(hwf f hf).1, (hwf f hf).2.1, le_trans (hwf f hf).2.2 (by norm_num)⟩
  have hstep := streamLoop_frames (encFrames F ++ (u32le t2 ++ u64le L ++ frag)) stale8 h8
    F (u32le t2 ++ u64le L ++ frag) 0
    ((encFrames F ++ (u32le t2 ++ u64le L ++ frag)).length + 1) [] 0 (by simp) hwf2 (by omega)
  simp only [List.nil_append, Nat.zero_add] at hstep
  have hdropF : (encFrames F ++ (u32le t2 ++ u64le L ++ frag)).drop (encFrames F).length =
      u32le t2 ++ u64le L ++ frag := List.drop_left _ _
  have hnd := List.length_drop (encFrames F).length (encFrames F ++ (u32le t2 ++ u64le L ++ frag))
  rw [hdropF] at hnd
  have h12 : (u32le t2 ++ u64le L ++ frag).length = 12 + frag.length := by
    rw [List.length_append, List.length_append, u32le_length, u64le_length]
  have hrem : (encFrames F ++ (u32le t2 ++ u64le L ++ frag)).length - (encFrames F).length =
      12 + frag.length := by omega
  have h1 : (encFrames F).length < (encFrames F ++ (u32le t2 ++ u64le L ++ frag)).length := by
    omega
  have h2 : ¬ (encFrames F ++ (u32le t2 ++ u64le L ++ frag)).length - (encFrames F).length < 4 := by
    omega
  have hdropF4 : (encFrames F ++ (u32le t2 ++ u64le L ++ frag)).drop ((encFrames F).length + 4) =
      u64le L ++ frag := by
    rw [← List.drop_drop, hdropF, List.append_assoc, List.drop_left' (u32le_length t2)]
  have hsize : readBuf (encFrames F ++ (u32le t2 ++ u64le L ++ frag)) ((encFrames F).length + 4)
      stale8 = u64le L :=
    readBuf_exact _ stale8 (u64le L) frag _ hdropF4 (by rw [u64le_length, h8])
  have hsf : sizeFieldAt (encFrames F ++ (u32le t2 ++ u64le L ++ frag)) stale8
      ((encFrames F).length + 4) = (L : Int) := by
    unfold sizeFieldAt rawSizeAt toSigned64
    rw [hsize, leVal_u64le, Nat.mod_eq_of_lt (by omega), if_pos (by omega)]
  have h3 : ¬ (sizeFieldAt (encFrames F ++ (u32le t2 ++ u64le L ++ frag)) stale8
        ((encFrames F).length + 4) < 1 ∨
      1024 * 1024 < sizeFieldAt (encFrames F ++ (u32le t2 ++ u64le L ++ frag)) stale8
        ((encFrames F).length + 4)) := by
    rw [hsf]
    push_neg
    constructor
    · exact_mod_cast hL1
    · exact_mod_cast hL2
  have hafter : afterSize (encFrames F ++ (u32le t2 ++ u64le L ++ frag)) stale8
      ((encFrames F).length + 4) = (encFrames F).length + 12 := by
    unfold afterSize
    rw [h8]
    omega
  have h4 : (((encFrames F ++ (u32le t2 ++ u64le L ++ frag)).length -
        afterSize (encFrames F ++ (u32le t2 ++ u64le L ++ frag)) stale8
          ((encFrames F).length + 4) : Nat) : Int) <
      sizeFieldAt (encFrames F ++ (u32le t2 ++ u64le L ++ frag)) stale8
        ((encFrames F).length + 4) := by
    rw [hsf, hafter]
    have hfr : (encFrames F ++ (u32le t2 ++ u64le L ++ frag)).length -
        ((encFrames F).length + 12) = frag.length := by omega
    rw [hfr]
    exact_mod_cast hshort
  unfold parseLogFile
  rw [hstep]
  exact streamLoop_trunc _ stale8 _ F F.length (encFrames F).length h1 h2 h3 h4

/-- C6 witness: one good frame then a final frame declaring 3 payload
bytes with only 1 present: the stream ends Completed with the good frame
retained. -/
theorem claim6_witness :
    parseLogFile zeros8 (encFrames [(7, [9])] ++ (u32le 1 ++ u64le 3 ++ [9])) =
      ⟨[(7, [9])], StreamStatus.completed, 2⟩ :=
  claim6_amended zeros8 [(7, [9])] 1 3 [9] (by decide) (by decide) (by decide) (by decide)
    (by decide)

/-- C6 counterexample: a final frame declaring 1 MiB + 1 payload bytes
with 0 bytes remaining after its header does declare a payload length
exceeding the bytes remaining, yet the streamer reports
StoppedOnCorruption (the sanity bound is checked first), not the normal
end of stream the claim asserts. -/
theorem claim6_counterexample :
    parseLogFile zeros8 (u32le 0 ++ u64le (1024 * 1024 + 1)) =
      ⟨[], StreamStatus.stoppedOnCorruption, 1⟩ := by
  decide

/-- C4 (amended: the guard is one timestamp, not one full header): the
Frame Streamer stops without attempting the header read only when fewer
than 4 bytes (the timestamp field) remain at the top of an iteration;
whenever at least 4 bytes remain it performs the header read (even with
fewer than the 12 bytes of a full header remaining).  (The original claim
said the guard was a full header's 12 bytes — see the counterexample.) -/
theorem claim4_amended (input stale8 : List Nat) (fuel : Nat) (acc : List (Nat × List Nat))
    (reads pos : Nat) :
    (input.length - pos < 4 →
      streamLoop input stale8 fuel acc reads pos = ⟨acc, StreamStatus.completed, reads⟩) ∧
    (4 ≤ input.length - pos → 0 < fuel →
      reads < (streamLoop input stale8 fuel acc reads pos).headerReads) := by
  constructor
  · intro h
    exact streamLoop_short input stale8 fuel acc reads pos h
  · intro h hf
    cases fuel with
    | zero => omega
    | succ fu =>
      have h1 : pos < input.length := by omega
      have h2 : ¬ input.length - pos < 4 := by omega
      by_cases h3 : sizeFieldAt input stale8 (pos + 4) < 1 ∨
          1024 * 1024 < sizeFieldAt input stale8 (pos + 4)
      · rw [streamLoop_corrupt input stale8 fu acc reads pos h1 h2 h3]
        exact Nat.lt_succ_self reads
      · by_cases h4 : ((input.length - afterSize input stale8 (pos + 4) : Nat) : Int) <
            sizeFieldAt input stale8 (pos + 4)
        · rw [streamLoop_trunc input stale8 fu acc reads pos h1 h2 h3 h4]
          exact Nat.lt_succ_self reads
        · rw [streamLoop_step input stale8 fu acc reads pos h1 h2 h3 h4]
          exact lt_of_lt_of_le (Nat.lt_succ_self reads)
            (streamLoop_reads_mono input stale8 fu _ _ _)

/-- C4 witness: with 3 bytes the loop stops without a header read; with 5
bytes (≥ 4 but < 12) a header read is performed. -/
theorem claim4_witness :
    streamLoop [1, 2, 3] zeros8 4 [] 0 0 = ⟨[], StreamStatus.completed, 0⟩ ∧
      0 < (streamLoop [0, 0, 0, 0, 0] zeros8 6 [] 0 0).headerReads :=
  ⟨(claim4_amended [1, 2, 3] zeros8 4 [] 0 0).1 (by decide),
   (claim4_amended [0, 0, 0, 0, 0] zeros8 6 [] 0 0).2 (by decide) (by decide)⟩

/-- C4 counterexample: an input of 5 bytes has less than one full 12-byte
header remaining at the top of the first iteration, yet the streamer does
not stop without reading: it attempts the header read (headerReads = 1;
in C++ it reads the 4-byte timestamp and short-reads packetSize). -/
theorem claim4_counterexample :
    ([0, 0, 0, 0, 0] : List Nat).length < 12 ∧
      (parseLogFile zeros8 [0, 0, 0, 0, 0]).headerReads = 1 := by
  decide

/-- C9: encoding a frame per the header layout (4-byte LE timestamp T,
8-byte LE size field with low 16 bits = len(P) and high 48 bits zero,
then the payload P with len(P) ≤ 0xFFFF) and decoding it yields back
exactly T and P. -/
theorem claim9 (t : Nat) (p : List Nat) (ht : t < 2 ^ 32) (hp : p.length ≤ 65535) :
    decodeFrame (encFrame t p) = some (t, p) := by
  have h1 : (encFrame t p).take 4 = u32le t := by
    have : encFrame t p = u32le t ++ (u64le p.length ++ p) := by simp [encFrame]
    rw [this, List.take_left' (u32le_length t)]
  have h2 : ((encFrame t p).drop 4).take 8 = u64le p.length := by
    have : encFrame t p = u32le t ++ (u64le p.length ++ p) := by simp [encFrame]
    rw [this, List.drop_left' (u32le_length t), List.take_left' (u64le_length p.length)]
  have h3 : (encFrame t p).drop 12 = p := by
    have hd : (encFrame t p).drop 0 = encFrame t p ++ [] := by simp
    have := drop_encFrame_twelve (encFrame t p) [] 0 t p hd
    simpa using this
  unfold decodeFrame
  rw [h2, leVal_u64le, Nat.mod_eq_of_lt (by omega), if_neg (by omega), h1, leVal_u32le,
    Nat.mod_eq_of_lt ht, h3, List.take_length]

/-- C9 witness: round trip at timestamp 3, payload [1, 2]. -/
theorem claim9_witness : decodeFrame (encFrame 3 [1, 2]) = some (3, [1, 2]) :=
  claim9 3 [1, 2] (by decide) (by decide)

end KmlLog
